import Mathlib

/-
Verification of the generation/audit core of the AWS-DevOps-Agent repository.
Strings of the Python sources are embedded as `List Char`; external effects
(subprocess runs of hadolint / trivy / cfn-lint, JSON parsing, the generative
backend) are embedded as explicit outcome parameters, so the pure decision
logic of the source functions becomes executable Lean definitions.
-/

/-- Python whitespace test used by `str.strip` (ASCII subset actually produced
by the backends modelled here: space, tab, newline, vertical tab, form feed,
carriage return). -/
def isPySpace (c : Char) : Bool :=
  (c = ' ') || (c = '\t') || (c = '\n') || (c = Char.ofNat 11) || (c = Char.ofNat 12) || (c = '\r')

/-- Remove trailing characters satisfying `isPySpace` (right half of `str.strip`). -/
def rstripWS (l : List Char) : List Char :=
  (l.reverse.dropWhile isPySpace).reverse

/-- Embedding of Python `str.strip()` on `List Char`. -/
def pyStrip (l : List Char) : List Char :=
  rstripWS (l.dropWhile isPySpace)

/-- Fuel-driven core of Python `str.replace(p, r)`: scan left to right, replace
each non-overlapping occurrence of `p` by `r`.  The fuel only needs to be at
least the length of the scanned list. -/
def pyReplaceAux (p r : List Char) : Nat → List Char → List Char
  | 0, s => s
  | Nat.succ _, [] => []
  | Nat.succ n, c :: cs =>
    if p ≠ [] ∧ p <+: (c :: cs) then r ++ pyReplaceAux p r n (cs.drop (p.length - 1))
    else c :: pyReplaceAux p r n cs

/-- Embedding of Python `s.replace(p, r)` (all occurrences, left to right). -/
def pyReplace (p r s : List Char) : List Char :=
  pyReplaceAux p r s.length s

/-- The triple-backtick fence marker. -/
def ticksP : List Char := "```".data

/-- The backtick character. -/
def btick : Char := Char.ofNat 96

/-- Output normalization shared by `generate_dockerfile` and
`generate_sam_template` (src/src/engines/decision_engine.py lines 45 and 76):
`response.text.replace("```" + tag, "").replace("```", "").strip()`. -/
def normalizeFence (tag s : List Char) : List Char :=
  pyStrip (pyReplace ticksP [] (pyReplace (ticksP ++ tag) [] s))

/-- Analysis context handed to the generator: the dict built by
`AnalysisEngine.analyze_context`, read back with `context.get(...)` defaults
in `DecisionEngine.generate_dockerfile`. -/
structure GenContext where
  stack_summary : Option (List Char)
  security_context : Option (List Char)

/-- Base prompt of `DecisionEngine.generate_dockerfile`
(src/src/engines/decision_engine.py lines 17-28). -/
def dockerPromptBase (stack rules error_msg : List Char) : List Char :=
  "\n        You are a DevOps Expert. Generate a production-ready 'Dockerfile' for the following application.\n        \n        [Tech Stack]\n        ".data
  ++ stack
  ++ "\n        \n        [Security Rules]\n        ".data
  ++ rules
  ++ "\n        \n        [Feedback from previous attempt]\n        ".data
  ++ (if error_msg = [] then "None (First attempt)".data else error_msg)
  ++ "\n        ".data

/-- The block appended to the prompt when `target_service == "lambda"`
(src/src/engines/decision_engine.py lines 31-39): the aws-lambda-adapter COPY
line plus the port-8080 requirement. -/
def lambdaBlock : List Char :=
  "\n            \n[IMPORTANT: AWS Lambda Deployment]\n            This container will run on AWS Lambda.\n            You MUST add the following line to the Dockerfile to handle HTTP requests:\n            COPY --from=public.ecr.aws/awsguru/aws-lambda-adapter:0.8.4 /lambda-adapter /opt/extensions/lambda-adapter\n            \n            Ensure the ENTRYPOINT or CMD starts the web server on port 8080 (default).\n            ".data

/-- Fixed output-format instruction appended to every Dockerfile prompt
(src/src/engines/decision_engine.py line 41). -/
def dockerPromptFooter : List Char :=
  "\nOutput ONLY the Dockerfile content. No markdown code blocks, no explanations.".data

/-- The full prompt `generate_dockerfile` sends to the backend. -/
def docker_prompt (stack rules error_msg target_service : List Char) : List Char :=
  dockerPromptBase stack rules error_msg
  ++ (if target_service = "lambda".data then lambdaBlock else [])
  ++ dockerPromptFooter

/-- `DecisionEngine.generate_dockerfile`, with the backend (`llm.complete`)
passed in as a function from prompt to response text.  The `attempt` argument
is accepted but, as in the source, not used. -/
def generate_dockerfile (llm : List Char → List Char) (context : GenContext)
    (attempt : Nat) (error_msg : List Char) (target_service : List Char) : List Char :=
  let stack := context.stack_summary.getD "Unknown Stack".data
  let rules := context.security_context.getD "Standard best practices".data
  normalizeFence "dockerfile".data (llm (docker_prompt stack rules error_msg target_service))

/-- The prompt of `DecisionEngine.generate_sam_template`
(src/src/engines/decision_engine.py lines 53-72); `error_msg` is accepted by
the method but never interpolated. -/
def sam_prompt (project_name : List Char) : List Char :=
  "\n        You are an AWS DevOps Expert. Generate an AWS SAM template (template.yaml) for a serverless application.\n        \n        [Project Name]\n        ".data
  ++ project_name
  ++ "\n        \n        [Requirements]\n        1. Create a Lambda function resource ('AWS::Serverless::Function').\n        2. Use 'PackageType: Image'.\n        3. DO NOT specify 'ImageUri'. Instead, use the 'Metadata' section to configure the build:\n           - Dockerfile: Dockerfile\n           - DockerContext: .\n           - DockerTag: latest\n        4. Enable a public Function URL (AuthType: NONE).\n        5. Add 'AWSLambdaBasicExecutionRole' to Policies.\n        6. Output the Function URL in the 'Outputs' section.\n        7. Set MemorySize to 512 and Timeout to 30.\n        8. Architecture should be x86_64.\n\n        Output ONLY the SAM template content in YAML format. No markdown code blocks, no explanations.\n        ".data

/-- `DecisionEngine.generate_sam_template`. -/
def generate_sam_template (llm : List Char → List Char)
    (project_name error_msg : List Char) : List Char :=
  normalizeFence "yaml".data (llm (sam_prompt project_name))

/-- One hadolint JSON finding (`{level, code, message, line}`). -/
structure HadoFinding where
  level : List Char
  code : List Char
  message : List Char
  line : Nat

/-- Outcome of the hadolint invocation in `audit_dockerfile`: the binary may be
missing (FileNotFoundError), stdout may be empty, `json.loads` may fail
(JSONDecodeError), or a list of findings is parsed. -/
inductive HadolintResult
  | unavailable
  | emptyOutput
  | malformed
  | findings (errors : List HadoFinding)

/-- The severity filter of the hadolint loop:
`err['level'] in ['error', 'warning']`. -/
def hadolintKeep (e : HadoFinding) : Bool :=
  e.level == "error".data || e.level == "warning".data

/-- The violation string appended per kept hadolint finding:
`f"[Hadolint] {err['code']}: {err['message']} (Line {err['line']})"`. -/
def hadolintLine (e : HadoFinding) : List Char :=
  "[Hadolint] ".data ++ e.code ++ ": ".data ++ e.message
    ++ " (Line ".data ++ (Nat.repr e.line).data ++ ")".data

/-- Violations contributed by the hadolint step of `audit_dockerfile`
(src/src/engines/decision_engine.py lines 94-108). -/
def hadolintViolations : HadolintResult → List (List Char)
  | .findings errors =>
      errors.foldl (fun acc err => if hadolintKeep err then acc ++ [hadolintLine err] else acc) []
  | _ => []

/-- One trivy misconfiguration record (`{ID, Description}`). -/
structure Misconf where
  id : List Char
  description : List Char

/-- One entry of trivy's `Results` array; the `Misconfigurations` key is
optional. -/
structure TrivyRes where
  misconfigurations : Option (List Misconf)

/-- A parsed trivy JSON document; the `Results` key is optional. -/
structure TrivyScan where
  results : Option (List TrivyRes)

/-- `f"[Trivy] {misconf['ID']}: {misconf['Description']}"`. -/
def trivyLine (m : Misconf) : List Char :=
  "[Trivy] ".data ++ m.id ++ ": ".data ++ m.description

/-- The nested `Results` / `Misconfigurations` walk shared by both audits. -/
def trivyScanEntries (scan : TrivyScan) (fmt : Misconf → List Char) : List (List Char) :=
  match scan.results with
  | none => []
  | some rs =>
      rs.foldl (fun acc r =>
        match r.misconfigurations with
        | none => acc
        | some ms => acc ++ ms.map fmt) []

/-- Outcome of the trivy invocation in `audit_dockerfile`: missing binary,
skipped (non-zero returncode or empty stdout, per
`if result.returncode == 0 and result.stdout`), malformed JSON, or parsed. -/
inductive DTrivyResult
  | unavailable
  | skipped
  | malformed
  | parsed (scan : TrivyScan)

/-- Violations contributed by the trivy step of `audit_dockerfile`
(src/src/engines/decision_engine.py lines 112-131). -/
def dtrivyViolations : DTrivyResult → List (List Char)
  | .parsed scan => trivyScanEntries scan trivyLine
  | _ => []

/-- The prompt of the semantic fallback check in `audit_dockerfile`
(src/src/engines/decision_engine.py lines 141-147). -/
def audit_prompt (content service : List Char) : List Char :=
  "\n            Audit this Dockerfile logic for ".data
  ++ service
  ++ ". \n            If target is 'lambda', check if 'aws-lambda-adapter' is COPY-ed.\n            Return 'PASS' if safe and requirements met, else briefly explain the missing part.\n            \n            ".data
  ++ content
  ++ "\n            ".data

/-- The source tag of the semantic fallback check's violation string. -/
def aiLogicTag : List Char := "[AI Logic Check] ".data

/-- `DecisionEngine.audit_dockerfile`: hadolint and trivy outcomes are passed
in as data, the backend as a function of the prompt.  Returns the violation
list exactly as the Python function builds it: hadolint findings, then trivy
findings; the semantic fallback runs only when that list is empty, and its
non-`PASS` reply is appended as `f"[AI Logic Check] {res}"`. -/
def audit_dockerfile (llm : List Char → List Char) (content service : List Char)
    (h : HadolintResult) (t : DTrivyResult) : List (List Char) :=
  let violations := hadolintViolations h ++ dtrivyViolations t
  if violations = [] then
    let res := pyStrip (llm (audit_prompt content service))
    if "PASS".data <:+: res then [] else [aiLogicTag ++ res]
  else violations

/-- One cfn-lint JSON finding (`{Level, Message, Location.Start.LineNumber}`). -/
structure CfnFinding where
  level : List Char
  message : List Char
  lineNumber : Nat

/-- Outcome of the cfn-lint invocation in `audit_sam_template`.  Unlike the
Dockerfile audit, the `subprocess.run` call is not wrapped in a
`FileNotFoundError` handler, so `unavailable` makes the whole audit raise. -/
inductive CfnResult
  | unavailable
  | emptyOutput
  | malformed
  | findings (errors : List CfnFinding)

/-- `f"[cfn-lint] {err['Level']}: {err['Message']} (Line ...LineNumber...)"`. -/
def cfnLine (e : CfnFinding) : List Char :=
  "[cfn-lint] ".data ++ e.level ++ ": ".data ++ e.message
    ++ " (Line ".data ++ (Nat.repr e.lineNumber).data ++ ")".data

/-- Violations contributed by the cfn-lint step (every finding is kept). -/
def cfnViolations : CfnResult → List (List Char)
  | .findings errors => errors.map cfnLine
  | _ => []

/-- Outcome of the trivy invocation in `audit_sam_template` (guarded only by
`if res.stdout`; no returncode check, no FileNotFoundError handler). -/
inductive TTrivyResult
  | unavailable
  | emptyOutput
  | malformed
  | parsed (scan : TrivyScan)

/-- `f"[Trivy IaC] {m['ID']}: {m['Description']}"`. -/
def ttrivyLine (m : Misconf) : List Char :=
  "[Trivy IaC] ".data ++ m.id ++ ": ".data ++ m.description

/-- Violations contributed by the trivy step of `audit_sam_template`. -/
def ttrivyViolations : TTrivyResult → List (List Char)
  | .parsed scan => trivyScanEntries scan ttrivyLine
  | _ => []

/-- `DecisionEngine.audit_sam_template` (src/src/engines/decision_engine.py
lines 156-207).  A missing cfn-lint or trivy binary raises FileNotFoundError,
which no handler catches (the surrounding `try` has only a `finally`), so the
audit aborts: modelled as `Except.error`. -/
def audit_sam_template (c : CfnResult) (t : TTrivyResult) : Except Unit (List (List Char)) :=
  match c with
  | .unavailable => .error ()
  | _ =>
    match t with
    | .unavailable => .error ()
    | _ => .ok (cfnViolations c ++ ttrivyViolations t)

/-- The token-embedded clone URL built by `AnalysisEngine.clone_repository`
(src/src/engines/analysis_engine.py lines 42-50):
`repo_url.replace("https://", f"https://{TOKEN}@")` when the URL is HTTPS. -/
def final_url (token : Option (List Char)) (repo_url : List Char) : List Char :=
  match token with
  | none => repo_url
  | some t =>
      if "https://".data <+: repo_url then
        pyReplace "https://".data ("https://".data ++ t ++ "@".data) repo_url
      else repo_url

/-- The error text logged by the `except` branch of `clone_repository`
(src/src/engines/analysis_engine.py lines 57-64):
`str(e)` with, when a token is configured,
`error_msg.replace(settings.GITHUB_TOKEN, "***")`. -/
def redacted_clone_error (token : Option (List Char)) (error_msg : List Char) : List Char :=
  match token with
  | none => error_msg
  | some t => pyReplace t "***".data error_msg

/-- The message of the exception re-raised by `clone_repository`. -/
def clone_failed_message : List Char :=
  "Repository clone failed (details in log)".data

/-- Retry budget `Settings.MAX_RETRIES` (src/src/config.py line 27). -/
def MAX_RETRIES : Nat := 3

/-- Terminal status of a correction-loop session. -/
inductive SessionStatus
  | Passed
  | Exhausted
deriving DecidableEq

/-- Modelled from the spec: one loop iteration (spec section 3, entity
`Attempt`), recording its 0-based index, the feedback passed to the generator
call that produced it, the generated artifact and the audit report.  The
correction loop itself is not among the provided source files: the entry point
`plan_deployment` (src/src/server.py lines 31-34) calls the generator exactly
once with attempt 0 and empty feedback and never calls the audit functions, so
the orchestration is modelled from spec section 4.3. -/
structure GAttempt (A V : Type) where
  index : Nat
  feedback : List V
  artifact : A
  report : List V

/-- Modelled from the spec: the final loop outcome (spec section 3, entity
`SessionResult`). -/
structure SessionResult (A V : Type) where
  status : SessionStatus
  attempt : GAttempt A V
  count : Nat

/-- Modelled from the spec: the correction-loop state machine of spec section
4.3, driven by a generator oracle `gen` (index and feedback to artifact) and
an auditor oracle `auditor` (artifact to violation list).  Auditing an
artifact with an empty report terminates as Passed with count = index + 1;
otherwise, if index + 1 equals `maxRetries` the session terminates as
Exhausted with count = index + 1; otherwise the index is incremented, the
feedback becomes this attempt's violations and generation runs again.  The
fuel argument bounds the recursion; `maxRetries` units always suffice. -/
def correctionLoopAux {A V : Type} [DecidableEq V] (gen : Nat → List V → A)
    (auditor : A → List V) (maxRetries : Nat) :
    Nat → List V → Nat → List (GAttempt A V) × Option (SessionResult A V)
  | _, _, 0 => ([], none)
  | idx, fb, Nat.succ fuel =>
    let art := gen idx fb
    let rep := auditor art
    let att : GAttempt A V := ⟨idx, fb, art, rep⟩
    if rep = [] then ([att], some ⟨SessionStatus.Passed, att, idx + 1⟩)
    else if idx + 1 = maxRetries then ([att], some ⟨SessionStatus.Exhausted, att, idx + 1⟩)
    else
      let next := correctionLoopAux gen auditor maxRetries (idx + 1) rep fuel
      (att :: next.1, next.2)

/-- Modelled from the spec: a whole session, starting in state Generating with
attempt index 0 and empty feedback.  Returns the attempts ever created and the
session result. -/
def runSession {A V : Type} [DecidableEq V] (gen : Nat → List V → A)
    (auditor : A → List V) (maxRetries : Nat) :
    List (GAttempt A V) × Option (SessionResult A V) :=
  correctionLoopAux gen auditor maxRetries 0 [] maxRetries

/-- The feedback-chaining invariant over a run of attempts: the first attempt
received `fb`, and each later attempt received exactly the previous attempt's
report. -/
def feedbackChain {A V : Type} (fb : List V) : List (GAttempt A V) → Prop
  | [] => True
  | a :: rest => a.feedback = fb ∧ feedbackChain a.report rest

/-- Number of leading backticks of a character list. -/
def leadB (l : List Char) : Nat := (l.takeWhile (fun c => c == btick)).length

example : "ab".data = ['a', 'b'] := rfl
example : ticksP = [btick, btick, btick] := rfl
example : normalizeFence "dockerfile".data "```dockerfile\nFROM x\n```".data = "FROM x".data := by decide
example : pyReplace "*".data "***".data "a*b".data = "a***b".data := by decide
example : ("PASS".data <:+: "x PASSWORD".data) := by decide

lemma occSplitAppend {p a b : List Char} (hp : p ≠ []) (h : p <:+: a ++ b) :
    p <:+: b ∨ ∃ ch ∈ a, ch ∈ p := by
  obtain ⟨t, u, htu⟩ := h
  rw [List.append_assoc] at htu
  rcases List.append_eq_append_iff.mp htu with ⟨w, hw1, hw2⟩ | ⟨w, hw1, hw2⟩
  · cases w with
    | nil =>
      left
      exact ⟨[], u, by simpa using hw2⟩
    | cons wc w' =>
      right
      cases p with
      | nil => exact absurd rfl hp
      | cons pc p' =>
        have hhd : pc = wc := by
          have := hw2
          simp only [List.cons_append] at this
          exact (List.cons.injEq _ _ _ _ ▸ this).1
        refine ⟨wc, ?_, ?_⟩
        · rw [hw1]; exact List.mem_append.mpr (Or.inr (List.mem_cons_self _ _))
        · rw [← hhd]; exact List.mem_cons_self _ _
  · left
    exact ⟨w, u, by rw [hw2, List.append_assoc]⟩

lemma occSplitCons {p : List Char} {c : Char} {Y : List Char} (h : p <:+: c :: Y) :
    p <+: c :: Y ∨ p <:+: Y := by
  obtain ⟨t, u, htu⟩ := h
  cases t with
  | nil => exact Or.inl ⟨u, by simpa using htu⟩
  | cons tc t' =>
    right
    simp only [List.cons_append] at htu
    exact ⟨t', u, ((List.cons.injEq _ _ _ _ ▸ htu).2)⟩

lemma replacePre (p r : List Char) (hr : r ≠ []) :
    ∀ n s q, s.length ≤ n → q <+: pyReplaceAux p r n s → q <+: s ∨ ∃ ch ∈ r, ch ∈ q := by
  intro n
  induction n with
  | zero => intro s q _ hq; exact Or.inl hq
  | succ n ih =>
    intro s q hs hq
    cases s with
    | nil => exact Or.inl hq
    | cons c cs =>
      have hlen : cs.length ≤ n := by simpa using Nat.le_of_succ_le_succ hs
      simp only [pyReplaceAux] at hq
      by_cases hcond : p ≠ [] ∧ p <+: (c :: cs)
      · rw [if_pos hcond] at hq
        cases q with
        | nil => exact Or.inl ⟨c :: cs, rfl⟩
        | cons qc q' =>
          obtain ⟨t, ht⟩ := hq
          cases r with
          | nil => exact absurd rfl hr
          | cons rc r' =>
            simp only [List.cons_append] at ht
            have hhd : qc = rc := (List.cons.injEq _ _ _ _ ▸ ht).1
            exact Or.inr ⟨rc, List.mem_cons_self _ _, by rw [← hhd]; exact List.mem_cons_self _ _⟩
      · rw [if_neg hcond] at hq
        cases q with
        | nil => exact Or.inl ⟨c :: cs, rfl⟩
        | cons qc q' =>
          obtain ⟨t, ht⟩ := hq
          simp only [List.cons_append] at ht
          have hhd : qc = c := (List.cons.injEq _ _ _ _ ▸ ht).1
          have htl : q' ++ t = pyReplaceAux p r n cs := (List.cons.injEq _ _ _ _ ▸ ht).2
          rcases ih cs q' hlen ⟨t, htl⟩ with hl | ⟨ch, hchr, hchq⟩
          · obtain ⟨t', ht'⟩ := hl
            exact Or.inl ⟨t', by rw [List.cons_append, ht', hhd]⟩
          · exact Or.inr ⟨ch, hchr, List.mem_cons_of_mem _ hchq⟩

lemma replaceNoOcc (p r : List Char) (hp : p ≠ []) (hr : r ≠ [])
    (hdisj : ∀ ch ∈ r, ch ∉ p) :
    ∀ n s, s.length ≤ n → ¬ p <:+: pyReplaceAux p r n s := by
  intro n
  induction n with
  | zero =>
    intro s hs hocc
    have hnil : s = [] := List.length_eq_zero.mp (Nat.le_zero.mp hs)
    subst hnil
    obtain ⟨t, u, htu⟩ := hocc
    exact hp (List.append_eq_nil.mp (List.append_eq_nil.mp htu).1).2
  | succ n ih =>
    intro s hs hocc
    cases s with
    | nil =>
      obtain ⟨t, u, htu⟩ := hocc
      exact hp (List.append_eq_nil.mp (List.append_eq_nil.mp htu).1).2
    | cons c cs =>
      have hlen : cs.length ≤ n := by simpa using Nat.le_of_succ_le_succ hs
      simp only [pyReplaceAux] at hocc
      by_cases hcond : p ≠ [] ∧ p <+: (c :: cs)
      · rw [if_pos hcond] at hocc
        rcases occSplitAppend hp hocc with h1 | ⟨ch, hchr, hchp⟩
        · exact ih (cs.drop (p.length - 1))
            (Nat.le_trans (by simpa using Nat.sub_le cs.length (p.length - 1)) hlen) h1
        · exact hdisj ch hchr hchp
      · rw [if_neg hcond] at hocc
        have hpre : ¬ p <+: (c :: cs) := fun hpre => hcond ⟨hp, hpre⟩
        rcases occSplitCons hocc with hpfx | hinf
        · cases p with
          | nil => exact hp rfl
          | cons pc p' =>
            obtain ⟨t, ht⟩ := hpfx
            simp only [List.cons_append] at ht
            have hhd : pc = c := (List.cons.injEq _ _ _ _ ▸ ht).1
            have htl : p' ++ t = pyReplaceAux (pc :: p') r n cs := (List.cons.injEq _ _ _ _ ▸ ht).2
            rcases replacePre (pc :: p') r hr n cs p' hlen ⟨t, htl⟩ with hl | ⟨ch, hchr, hchq⟩
            · obtain ⟨t', ht'⟩ := hl
              exact hpre ⟨t', by rw [List.cons_append, ht', hhd]⟩
            · exact hdisj ch hchr (List.mem_cons_of_mem _ hchq)
        · exact ih cs hlen hinf

lemma replaceId (p r : List Char) :
    ∀ n s, s.length ≤ n → ¬ p <:+: s → pyReplaceAux p r n s = s := by
  intro n
  induction n with
  | zero => intro s _ _; rfl
  | succ n ih =>
    intro s hs hno
    cases s with
    | nil => rfl
    | cons c cs =>
      have hlen : cs.length ≤ n := by simpa using Nat.le_of_succ_le_succ hs
      simp only [pyReplaceAux]
      by_cases hcond : p ≠ [] ∧ p <+: (c :: cs)
      · obtain ⟨t, ht⟩ := hcond.2
        exact absurd ⟨[], t, by simpa using ht⟩ hno
      · rw [if_neg hcond]
        have hno' : ¬ p <:+: cs := by
          intro ⟨t, u, htu⟩
          exact hno ⟨c :: t, u, by simp [List.cons_append, htu]⟩
        rw [ih cs hlen hno']

lemma pyReplaceNoOcc (p r : List Char) (hp : p ≠ []) (hr : r ≠ [])
    (hdisj : ∀ ch ∈ r, ch ∉ p) (s : List Char) : ¬ p <:+: pyReplace p r s :=
  replaceNoOcc p r hp hr hdisj s.length s (Nat.le_refl _)

lemma pyReplaceId (p r s : List Char) (h : ¬ p <:+: s) : pyReplace p r s = s :=
  replaceId p r s.length s (Nat.le_refl _) h

lemma leadB_cons (c : Char) (cs : List Char) :
    leadB (c :: cs) = if c == btick then leadB cs + 1 else 0 := by
  by_cases h : c == btick
  · simp [leadB, List.takeWhile_cons, h]
  · simp [leadB, List.takeWhile_cons, h]

lemma leadB_two {cs : List Char} (h : 2 ≤ leadB cs) : ticksP <+: (btick :: cs) := by
  cases cs with
  | nil => simp [leadB] at h
  | cons c' cs' =>
    by_cases hc : c' == btick
    · have hc' : c' = btick := eq_of_beq hc
      rw [leadB_cons, if_pos hc] at h
      cases cs' with
      | nil => simp [leadB] at h
      | cons c'' cs'' =>
        by_cases hc2 : c'' == btick
        · have hc'' : c'' = btick := eq_of_beq hc2
          subst hc'
          subst hc''
          exact ⟨cs'', rfl⟩
        · rw [leadB_cons, if_neg hc2] at h
          omega
    · rw [leadB_cons, if_neg hc] at h
      omega

lemma leadB_le_one {c : Char} {cs : List Char} (h : ¬ ticksP <+: (c :: cs)) (hc : c = btick) :
    leadB cs ≤ 1 := by
  by_contra h2
  exact h (hc ▸ leadB_two (by omega))

lemma leadB_ge_two {t : List Char} : 2 ≤ leadB (btick :: btick :: t) := by
  rw [leadB_cons, if_pos (by rfl), leadB_cons, if_pos (by rfl)]
  omega

lemma replaceTicksLeadB :
    ∀ n s, s.length ≤ n → leadB (pyReplaceAux ticksP [] n s) = leadB s % 3 := by
  intro n
  induction n with
  | zero =>
    intro s hs
    have hnil : s = [] := List.length_eq_zero.mp (Nat.le_zero.mp hs)
    subst hnil
    rfl
  | succ n ih =>
    intro s hs
    cases s with
    | nil => rfl
    | cons c cs =>
      have hlen : cs.length ≤ n := by simpa using Nat.le_of_succ_le_succ hs
      simp only [pyReplaceAux]
      by_cases hcond : ticksP ≠ [] ∧ ticksP <+: (c :: cs)
      · rw [if_pos hcond]
        obtain ⟨t, ht⟩ := hcond.2
        have hT : ticksP = [btick, btick, btick] := rfl
        rw [hT] at ht
        simp only [List.cons_append, List.nil_append] at ht
        have h1 : btick = c := (List.cons.injEq _ _ _ _ ▸ ht).1
        have h2 : btick :: btick :: t = cs := (List.cons.injEq _ _ _ _ ▸ ht).2
        have hdrop : cs.drop (ticksP.length - 1) = t := by rw [← h2]; rfl
        rw [hdrop, List.nil_append]
        have hlt : t.length ≤ n := by
          rw [← h2] at hlen
          simp at hlen
          omega
        rw [ih t hlt, ← h1, ← h2]
        rw [leadB_cons, if_pos (by rfl), leadB_cons, if_pos (by rfl), leadB_cons, if_pos (by rfl)]
        omega
      · rw [if_neg hcond]
        have hpre : ¬ ticksP <+: (c :: cs) := fun hp => hcond ⟨by decide, hp⟩
        by_cases hc : c == btick
        · have hc' : c = btick := eq_of_beq hc
          have hle := leadB_le_one hpre hc'
          rw [leadB_cons, if_pos hc, leadB_cons, if_pos hc, ih cs hlen]
          omega
        · rw [leadB_cons, if_neg hc, leadB_cons, if_neg hc]

lemma replaceTicksNoTriple :
    ∀ n s, s.length ≤ n → ¬ ticksP <:+: pyReplaceAux ticksP [] n s := by
  intro n
  induction n with
  | zero =>
    intro s hs hocc
    have hnil : s = [] := List.length_eq_zero.mp (Nat.le_zero.mp hs)
    subst hnil
    obtain ⟨t, u, htu⟩ := hocc
    exact absurd (List.append_eq_nil.mp (List.append_eq_nil.mp htu).1).2 (by decide)
  | succ n ih =>
    intro s hs hocc
    cases s with
    | nil =>
      obtain ⟨t, u, htu⟩ := hocc
      exact absurd (List.append_eq_nil.mp (List.append_eq_nil.mp htu).1).2 (by decide)
    | cons c cs =>
      have hlen : cs.length ≤ n := by simpa using Nat.le_of_succ_le_succ hs
      simp only [pyReplaceAux] at hocc
      by_cases hcond : ticksP ≠ [] ∧ ticksP <+: (c :: cs)
      · rw [if_pos hcond, List.nil_append] at hocc
        exact ih (cs.drop (ticksP.length - 1))
          (Nat.le_trans (by simpa using Nat.sub_le cs.length (ticksP.length - 1)) hlen) hocc
      · rw [if_neg hcond] at hocc
        have hpre : ¬ ticksP <+: (c :: cs) := fun hp => hcond ⟨by decide, hp⟩
        rcases occSplitCons hocc with hpfx | hinf
        · obtain ⟨t, ht⟩ := hpfx
          have hT : ticksP = [btick, btick, btick] := rfl
          rw [hT] at ht
          simp only [List.cons_append, List.nil_append] at ht
          have h1 : btick = c := (List.cons.injEq _ _ _ _ ▸ ht).1
          have h2 : btick :: btick :: t = pyReplaceAux ticksP [] n cs :=
            (List.cons.injEq _ _ _ _ ▸ ht).2
          have hge : 2 ≤ leadB (pyReplaceAux ticksP [] n cs) := h2 ▸ leadB_ge_two
          have hle := leadB_le_one hpre h1.symm
          rw [replaceTicksLeadB n cs hlen] at hge
          omega
        · exact ih cs hlen hinf

lemma pyReplaceTicksNoTriple (s : List Char) : ¬ ticksP <:+: pyReplace ticksP [] s :=
  replaceTicksNoTriple s.length s (Nat.le_refl _)

lemma dropWhileDouble (q : Char → Bool) (l : List Char) :
    (l.dropWhile q).dropWhile q = l.dropWhile q := by
  induction l with
  | nil => rfl
  | cons c cs ih =>
    by_cases h : q c
    · rw [List.dropWhile_cons, if_pos h, ih]
    · rw [List.dropWhile_cons, if_neg h, List.dropWhile_cons, if_neg h]

lemma dropWhileHeadFalse (q : Char → Bool) :
    ∀ (l : List Char) (c : Char) (cs : List Char), l.dropWhile q = c :: cs → q c = false := by
  intro l
  induction l with
  | nil => intro c cs h; simp [List.dropWhile] at h
  | cons x xs ih =>
    intro c cs h
    by_cases hx : q x
    · rw [List.dropWhile_cons, if_pos hx] at h
      exact ih c cs h
    · rw [List.dropWhile_cons, if_neg hx] at h
      have hc : x = c := (List.cons.injEq _ _ _ _ ▸ h).1
      rw [← hc]
      exact Bool.not_eq_true _ ▸ (by simpa using hx)

lemma dropWhileSuffixEx (q : Char → Bool) (l : List Char) :
    ∃ t, t ++ l.dropWhile q = l := by
  induction l with
  | nil => exact ⟨[], rfl⟩
  | cons c cs ih =>
    by_cases h : q c
    · obtain ⟨t, ht⟩ := ih
      exact ⟨c :: t, by rw [List.dropWhile_cons, if_pos h, List.cons_append, ht]⟩
    · exact ⟨[], by rw [List.dropWhile_cons, if_neg h, List.nil_append]⟩

lemma rstripPrefixEx (l : List Char) : ∃ t, rstripWS l ++ t = l := by
  obtain ⟨t0, ht0⟩ := dropWhileSuffixEx isPySpace l.reverse
  refine ⟨t0.reverse, ?_⟩
  rw [rstripWS, ← List.reverse_append, ht0, List.reverse_reverse]

lemma rstripDouble (l : List Char) : rstripWS (rstripWS l) = rstripWS l := by
  rw [rstripWS, rstripWS, List.reverse_reverse, dropWhileDouble]

lemma stripDropStable (l : List Char) :
    (pyStrip l).dropWhile isPySpace = pyStrip l := by
  rw [pyStrip]
  obtain ⟨t, ht⟩ := rstripPrefixEx (l.dropWhile isPySpace)
  cases hR : rstripWS (l.dropWhile isPySpace) with
  | nil => rfl
  | cons c cs =>
    have hd : l.dropWhile isPySpace = c :: (cs ++ t) := by
      rw [← ht, hR, List.cons_append]
    have hfalse : isPySpace c = false := dropWhileHeadFalse isPySpace l c (cs ++ t) hd
    rw [List.dropWhile_cons, if_neg (by simp [hfalse])]

lemma pyStripIdem (l : List Char) : pyStrip (pyStrip l) = pyStrip l := by
  conv_lhs => rw [pyStrip, stripDropStable, pyStrip, rstripDouble]
  rfl

lemma pyStripIsPart (l : List Char) : ∃ t u, t ++ pyStrip l ++ u = l := by
  obtain ⟨t0, ht0⟩ := dropWhileSuffixEx isPySpace l
  obtain ⟨u, hu⟩ := rstripPrefixEx (l.dropWhile isPySpace)
  exact ⟨t0, u, by rw [pyStrip, List.append_assoc, hu, ht0]⟩

lemma noTripleStrip {l : List Char} (h : ¬ ticksP <:+: l) : ¬ ticksP <:+: pyStrip l := by
  intro ⟨a, b, hab⟩
  obtain ⟨t, u, htu⟩ := pyStripIsPart l
  exact h ⟨t ++ a, b ++ u, by rw [← htu, ← hab]; simp [List.append_assoc]⟩

lemma noTripleNoTag {tag l : List Char} (h : ¬ ticksP <:+: l) : ¬ (ticksP ++ tag) <:+: l := by
  intro ⟨a, b, hab⟩
  exact h ⟨a, tag ++ b, by rw [← hab]; simp [List.append_assoc]⟩

lemma dropWhileKeepsOcc (q : List Char) (hq : q ≠ []) (hws : ∀ c ∈ q, isPySpace c = false) :
    ∀ t u, q <:+: (t ++ q ++ u).dropWhile isPySpace := by
  intro t
  induction t with
  | nil =>
    intro u
    cases q with
    | nil => exact absurd rfl hq
    | cons qc q' =>
      rw [List.nil_append, List.cons_append, List.dropWhile_cons,
        if_neg (by simp [hws qc (List.mem_cons_self _ _)])]
      exact ⟨[], u, by simp⟩
  | cons c t' ih =>
    intro u
    rw [List.cons_append, List.cons_append, List.dropWhile_cons]
    by_cases hc : isPySpace c
    · rw [if_pos hc]
      exact ih u
    · rw [if_neg hc]
      exact ⟨c :: t', u, rfl⟩

lemma revOcc {a b : List Char} (h : a <:+: b) : a.reverse <:+: b.reverse := by
  obtain ⟨t, u, htu⟩ := h
  exact ⟨u.reverse, t.reverse, by rw [← htu]; simp [List.reverse_append, List.append_assoc]⟩

lemma rstripKeepsOcc (q : List Char) (hq : q ≠ []) (hws : ∀ c ∈ q, isPySpace c = false)
    {d : List Char} (h : q <:+: d) : q <:+: rstripWS d := by
  obtain ⟨t, u, htu⟩ := h
  have hrev : d.reverse = u.reverse ++ q.reverse ++ t.reverse := by
    rw [← htu]; simp [List.reverse_append, List.append_assoc]
  have hq' : q.reverse ≠ [] := by
    intro hn
    exact hq (by simpa using congrArg List.reverse hn)
  have hws' : ∀ c ∈ q.reverse, isPySpace c = false := fun c hc => hws c (List.mem_reverse.mp hc)
  have h1 := dropWhileKeepsOcc q.reverse hq' hws' u.reverse t.reverse
  rw [← hrev] at h1
  have h2 := revOcc h1
  rw [List.reverse_reverse] at h2
  exact h2

lemma stripKeepsOcc (q l : List Char) (hq : q ≠ []) (hws : ∀ c ∈ q, isPySpace c = false)
    (h : q <:+: l) : q <:+: pyStrip l := by
  obtain ⟨t, u, htu⟩ := h
  have h1 : q <:+: l.dropWhile isPySpace := by
    have h0 := dropWhileKeepsOcc q hq hws t u
    rw [htu] at h0
    exact h0
  exact rstripKeepsOcc q hq hws h1

lemma hadolintFoldl :
    ∀ (l : List HadoFinding) (acc : List (List Char)),
      l.foldl (fun acc err => if hadolintKeep err then acc ++ [hadolintLine err] else acc) acc
        = acc ++ (l.filter hadolintKeep).map hadolintLine := by
  intro l
  induction l with
  | nil => intro acc; simp
  | cons e l ih =>
    intro acc
    rw [List.foldl_cons]
    by_cases he : hadolintKeep e
    · simp only [if_pos he, ih, List.filter_cons, he, ite_true, List.map_cons]
      simp [List.append_assoc]
    · simp only [if_neg he, ih, List.filter_cons, he, ite_false]
      simp [he]

lemma loopSound {A V : Type} [DecidableEq V] (gen : Nat → List V → A) (auditor : A → List V)
    (m : Nat) :
    ∀ (fuel idx : Nat) (fb : List V), idx + fuel = m → 1 ≤ fuel →
      ∃ r : SessionResult A V,
        (correctionLoopAux gen auditor m idx fb fuel).2 = some r ∧
        r.count = r.attempt.index + 1 ∧
        (r.attempt.report = [] → r.status = SessionStatus.Passed) ∧
        (r.attempt.report ≠ [] → r.status = SessionStatus.Exhausted ∧ r.attempt.index + 1 = m) ∧
        (∀ a ∈ (correctionLoopAux gen auditor m idx fb fuel).1, a.index < m) := by
  intro fuel
  induction fuel with
  | zero => intro idx fb hm h1; omega
  | succ fuel ih =>
    intro idx fb hm _
    simp only [correctionLoopAux]
    by_cases hrep : auditor (gen idx fb) = []
    · rw [if_pos hrep]
      refine ⟨⟨SessionStatus.Passed, ⟨idx, fb, gen idx fb, auditor (gen idx fb)⟩, idx + 1⟩,
        rfl, rfl, fun _ => rfl, fun hne => absurd hrep hne, ?_⟩
      intro a ha
      have : a = ⟨idx, fb, gen idx fb, auditor (gen idx fb)⟩ := by simpa using ha
      rw [this]
      show idx < m
      omega
    · rw [if_neg hrep]
      by_cases hidx : idx + 1 = m
      · rw [if_pos hidx]
        refine ⟨⟨SessionStatus.Exhausted, ⟨idx, fb, gen idx fb, auditor (gen idx fb)⟩, idx + 1⟩,
          rfl, rfl, fun heq => absurd heq hrep, fun _ => ⟨rfl, hidx⟩, ?_⟩
        intro a ha
        have : a = ⟨idx, fb, gen idx fb, auditor (gen idx fb)⟩ := by simpa using ha
        rw [this]
        show idx < m
        omega
      · rw [if_neg hidx]
        have hf : 1 ≤ fuel := by omega
        obtain ⟨r, hr1, hr2, hr3, hr4, hr5⟩ :=
          ih (idx + 1) (auditor (gen idx fb)) (by omega) hf
        refine ⟨r, hr1, hr2, hr3, hr4, ?_⟩
        intro a ha
        rcases List.mem_cons.mp ha with heq | hmem
        · rw [heq]
          show idx < m
          omega
        · exact hr5 a hmem

lemma loopChain {A V : Type} [DecidableEq V] (gen : Nat → List V → A) (auditor : A → List V)
    (m : Nat) :
    ∀ (fuel idx : Nat) (fb : List V),
      feedbackChain fb (correctionLoopAux gen auditor m idx fb fuel).1 := by
  intro fuel
  induction fuel with
  | zero => intro idx fb; exact trivial
  | succ fuel ih =>
    intro idx fb
    simp only [correctionLoopAux]
    by_cases hrep : auditor (gen idx fb) = []
    · rw [if_pos hrep]
      exact ⟨rfl, trivial⟩
    · rw [if_neg hrep]
      by_cases hidx : idx + 1 = m
      · rw [if_pos hidx]
        exact ⟨rfl, trivial⟩
      · rw [if_neg hidx]
        exact ⟨rfl, ih (idx + 1) (auditor (gen idx fb))⟩

lemma chainGet {A V : Type} :
    ∀ (l : List (GAttempt A V)) (fb : List V), feedbackChain fb l →
      (∀ h0 : 0 < l.length, (l.get ⟨0, h0⟩).feedback = fb) ∧
      (∀ (i : Nat) (h : i + 1 < l.length),
        (l.get ⟨i + 1, h⟩).feedback = (l.get ⟨i, Nat.lt_of_succ_lt h⟩).report) := by
  intro l
  induction l with
  | nil =>
    intro fb _
    constructor
    · intro h0; simp at h0
    · intro i h; simp at h
  | cons a rest ih =>
    intro fb hch
    obtain ⟨hfb, hrest⟩ := hch
    constructor
    · intro h0
      simpa using hfb
    · intro i h
      cases i with
      | zero =>
        have hlen : 0 < rest.length := by simpa using Nat.lt_of_succ_lt_succ h
        have h1 := (ih a.report hrest).1 hlen
        simpa using h1
      | succ j =>
        have h' : j + 1 < rest.length := by simpa using Nat.lt_of_succ_lt_succ h
        have h1 := (ih a.report hrest).2 j h'
        simpa using h1

/-- C3: the generator's output normalization (strip the fenced code-block
wrapper with a language tag, then stray fence markers, then surrounding
whitespace, exactly as `.replace("```" ++ tag, "").replace("```", "").strip()`
does) is idempotent: for every language tag and every backend output string,
applying the normalization twice yields the same string as applying it once. -/
theorem fence_normalization_idempotent (tag s : List Char) :
    normalizeFence tag (normalizeFence tag s) = normalizeFence tag s := by
  have hy := pyReplaceTicksNoTriple (pyReplace (ticksP ++ tag) [] s)
  have hz : ¬ ticksP <:+: pyStrip (pyReplace ticksP [] (pyReplace (ticksP ++ tag) [] s)) :=
    noTripleStrip hy
  simp only [normalizeFence]
  rw [pyReplaceId _ _ _ (noTripleNoTag hz), pyReplaceId _ _ _ hz, pyStripIdem]

/-- C8: for every list of hadolint findings, the Dockerfile audit keeps exactly
one violation per finding whose level is "error" or "warning" (in order), and
every finding with any other level is discarded and produces no violation. -/
theorem hadolint_severity_gate (errors : List HadoFinding) :
    hadolintViolations (HadolintResult.findings errors)
      = (errors.filter
          (fun e => e.level == "error".data || e.level == "warning".data)).map hadolintLine := by
  show errors.foldl _ [] = _
  rw [hadolintFoldl]
  rfl

/-- C7: a validator whose tool ran but emitted unparseable output (the
JSONDecodeError branches) contributes exactly the same result as a validator
with an empty findings list, in both the Dockerfile audit and the template
audit: no exception, no violations attributed to it. -/
theorem malformed_tool_output_zero_findings (llm : List Char → List Char)
    (content service : List Char) (h : HadolintResult) (t : DTrivyResult)
    (c : CfnResult) (t2 : TTrivyResult) :
    audit_dockerfile llm content service HadolintResult.malformed t
      = audit_dockerfile llm content service (HadolintResult.findings []) t ∧
    audit_dockerfile llm content service h DTrivyResult.malformed
      = audit_dockerfile llm content service h (DTrivyResult.parsed ⟨some []⟩) ∧
    audit_sam_template CfnResult.malformed t2
      = audit_sam_template (CfnResult.findings []) t2 ∧
    audit_sam_template c TTrivyResult.malformed
      = audit_sam_template c (TTrivyResult.parsed ⟨some []⟩) := by
  refine ⟨rfl, rfl, ?_, ?_⟩
  · cases t2 <;> rfl
  · cases c <;> rfl

/-- C6 counterexample: in `audit_sam_template` a missing tool binary is NOT
skipped: the FileNotFoundError of `subprocess.run` has no handler there, so
the audit aborts (modelled as `Except.error`), for cfn-lint as well as for
trivy. -/
theorem sam_audit_tool_missing_aborts :
    audit_sam_template CfnResult.unavailable (TTrivyResult.parsed ⟨some []⟩)
        = Except.error () ∧
    audit_sam_template (CfnResult.findings []) TTrivyResult.unavailable
        = Except.error () :=
  ⟨rfl, rfl⟩

/-- C6 (amended): in the Dockerfile audit an unavailable tool is skipped —
equivalent to that validator reporting zero findings — and the cascade
completes with the remaining validators' violations (third conjunct spells
this out for a missing hadolint); in the template audit, by contrast, a
missing cfn-lint or trivy binary aborts the audit with an error. -/
theorem validator_unavailable_skipped (llm : List Char → List Char)
    (content service : List Char) (h : HadolintResult) (t : DTrivyResult) :
    audit_dockerfile llm content service HadolintResult.unavailable t
      = audit_dockerfile llm content service (HadolintResult.findings []) t ∧
    audit_dockerfile llm content service h DTrivyResult.unavailable
      = audit_dockerfile llm content service h DTrivyResult.skipped ∧
    audit_dockerfile llm content service HadolintResult.unavailable t
      = (if dtrivyViolations t = [] then
           (if "PASS".data <:+: pyStrip (llm (audit_prompt content service)) then []
            else [aiLogicTag ++ pyStrip (llm (audit_prompt content service))])
         else dtrivyViolations t) ∧
    (∀ c' : TTrivyResult, audit_sam_template CfnResult.unavailable c' = Except.error ()) ∧
    (∀ c : CfnResult, audit_sam_template c TTrivyResult.unavailable = Except.error ()) := by
  refine ⟨rfl, ?_, rfl, fun _ => rfl, ?_⟩
  · cases h <;> rfl
  · intro c; cases c <;> rfl

/-- C5: the semantic fallback check runs if and only if the deterministic
validators (hadolint and trivy) produced zero violations; when it runs and the
backend's text is not the PASS sentinel the audit result is exactly one
violation, tagged `[AI Logic Check]` (the semantic-check source); when the
deterministic validators produced any violation, the result is exactly their
list and is independent of the backend (the check is not invoked and
contributes nothing). -/
theorem semantic_fallback_gate (llm : List Char → List Char)
    (content service : List Char) (h : HadolintResult) (t : DTrivyResult) :
    (hadolintViolations h ++ dtrivyViolations t = [] →
      (¬ "PASS".data <:+: pyStrip (llm (audit_prompt content service)) →
        audit_dockerfile llm content service h t
          = [aiLogicTag ++ pyStrip (llm (audit_prompt content service))]) ∧
      ("PASS".data <:+: pyStrip (llm (audit_prompt content service)) →
        audit_dockerfile llm content service h t = [])) ∧
    (hadolintViolations h ++ dtrivyViolations t ≠ [] →
      audit_dockerfile llm content service h t = hadolintViolations h ++ dtrivyViolations t ∧
      ∀ llm2 : List Char → List Char,
        audit_dockerfile llm2 content service h t
          = hadolintViolations h ++ dtrivyViolations t) := by
  constructor
  · intro hdet
    constructor
    · intro hno
      simp only [audit_dockerfile]
      rw [if_pos hdet, if_neg hno]
    · intro hyes
      simp only [audit_dockerfile]
      rw [if_pos hdet, if_pos hyes]
  · intro hdet
    constructor
    · simp only [audit_dockerfile]
      rw [if_neg hdet]
    · intro llm2
      simp only [audit_dockerfile]
      rw [if_neg hdet]

/-- Witness for C5: concrete runs hitting each branch of the gate. -/
theorem semantic_fallback_gate_witness :
    audit_dockerfile (fun _ => "Missing adapter line".data) "FROM python".data "lambda".data
        HadolintResult.emptyOutput DTrivyResult.skipped
      = [aiLogicTag ++ pyStrip "Missing adapter line".data] ∧
    audit_dockerfile (fun _ => "PASS".data) "FROM python".data "lambda".data
        HadolintResult.emptyOutput DTrivyResult.skipped = [] ∧
    audit_dockerfile (fun _ => "PASS".data) "FROM python".data "lambda".data
        (HadolintResult.findings [⟨"error".data, "DL3000".data, "bad".data, 3⟩])
        DTrivyResult.skipped
      = hadolintViolations
          (HadolintResult.findings [⟨"error".data, "DL3000".data, "bad".data, 3⟩])
          ++ dtrivyViolations DTrivyResult.skipped := by
  refine ⟨?_, ?_, ?_⟩
  · exact ((semantic_fallback_gate (fun _ => "Missing adapter line".data) "FROM python".data
      "lambda".data HadolintResult.emptyOutput DTrivyResult.skipped).1 rfl).1 (by decide)
  · exact ((semantic_fallback_gate (fun _ => "PASS".data) "FROM python".data
      "lambda".data HadolintResult.emptyOutput DTrivyResult.skipped).1 rfl).2 (by decide)
  · exact ((semantic_fallback_gate (fun _ => "PASS".data) "FROM python".data "lambda".data
      (HadolintResult.findings [⟨"error".data, "DL3000".data, "bad".data, 3⟩])
      DTrivyResult.skipped).2 (by decide)).1

/-- C10 (implicit): the semantic fallback's success test is a substring check
(`"PASS" not in res`), so any backend response containing "PASS" anywhere —
including inside a failure explanation — makes a Dockerfile audit with no
deterministic findings return an empty violation list. -/
theorem semantic_pass_substring_check (llm : List Char → List Char)
    (content service : List Char) (h : HadolintResult) (t : DTrivyResult)
    (hdet : hadolintViolations h ++ dtrivyViolations t = [])
    (hpass : "PASS".data <:+: llm (audit_prompt content service)) :
    audit_dockerfile llm content service h t = [] := by
  have hs := stripKeepsOcc "PASS".data (llm (audit_prompt content service))
    (by decide) (by decide) hpass
  simp only [audit_dockerfile]
  rw [if_pos hdet, if_pos hs]

/-- Witness for C10: the response "PASSWORD exposed in build" is treated as a
pass. -/
theorem semantic_pass_substring_check_witness :
    audit_dockerfile (fun _ => "PASSWORD exposed in build".data) "FROM x".data "lambda".data
      HadolintResult.emptyOutput DTrivyResult.skipped = [] :=
  semantic_pass_substring_check _ _ _ _ _ rfl (by decide)

/-- C9 counterexample: with the configured token "*", the redacted clone error
for the message "fatal: auth * failed" still contains the token as a
substring, because `replace(token, "***")` re-introduces "*"; so "the error
text never contains the token substring" is false as universally stated. -/
theorem clone_redaction_cex :
    redacted_clone_error (some "*".data) "fatal: auth * failed".data
        = "fatal: auth *** failed".data ∧
    "*".data <:+: redacted_clone_error (some "*".data) "fatal: auth * failed".data :=
  ⟨by decide, by decide⟩

/-- C9 (amended): for every configured token that is non-empty and contains no
asterisk character (true of real GitHub tokens), the captured clone error text
after redaction contains no occurrence of the token; and the re-raised
exception carries the fixed constant message, independent of the error. -/
theorem clone_error_token_redacted (token err : List Char)
    (hne : token ≠ []) (hstar : ∀ c ∈ token, c ≠ '*') :
    ¬ token <:+: redacted_clone_error (some token) err ∧
    clone_failed_message = "Repository clone failed (details in log)".data := by
  refine ⟨?_, rfl⟩
  have hdisj : ∀ ch ∈ ("***".data : List Char), ch ∉ token := by
    intro ch hch hmem
    have h3 : ("***".data : List Char) = ['*', '*', '*'] := rfl
    rw [h3] at hch
    simp only [List.mem_cons, List.not_mem_nil, or_false, or_self] at hch
    exact hstar ch hmem hch
  exact pyReplaceNoOcc token "***".data hne (by decide) hdisj err

/-- Witness for C9 (amended): a realistic token never survives redaction. -/
theorem clone_error_token_redacted_witness :
    ¬ "ghp_abc123".data <:+:
        redacted_clone_error (some "ghp_abc123".data)
          "fatal: could not read https://ghp_abc123@github.com/x/y".data ∧
    clone_failed_message = "Repository clone failed (details in log)".data :=
  clone_error_token_redacted _ _ (by decide) (by decide)

/-- C4 (amended): when the deployment profile is "lambda" the prompt sent to
the backend always contains the mandatory platform-shim block (the
aws-lambda-adapter COPY line and the port-8080 requirement); for any other
profile the generator injects nothing — the prompt is exactly the base prompt
plus the fixed output-format footer (so it can still contain the shim text
only if an input such as the feedback embeds it). -/
theorem lambda_shim_injection (stack rules error_msg target_service : List Char) :
    (target_service = "lambda".data →
      lambdaBlock <:+: docker_prompt stack rules error_msg target_service) ∧
    (target_service ≠ "lambda".data →
      docker_prompt stack rules error_msg target_service
        = dockerPromptBase stack rules error_msg ++ dockerPromptFooter) := by
  constructor
  · intro ht
    subst ht
    simp only [docker_prompt, if_pos]
    exact ⟨dockerPromptBase stack rules error_msg, dockerPromptFooter, rfl⟩
  · intro ht
    simp only [docker_prompt, if_neg ht]
    simp

/-- Witness for C4 (amended): the lambda profile gets the shim block, the
local profile gets the bare base prompt. -/
theorem lambda_shim_injection_witness :
    lambdaBlock <:+: docker_prompt "Python".data "rules".data [] "lambda".data ∧
    docker_prompt "Python".data "rules".data [] "local".data
      = dockerPromptBase "Python".data "rules".data [] ++ dockerPromptFooter :=
  ⟨(lambda_shim_injection "Python".data "rules".data [] "lambda".data).1 rfl,
   (lambda_shim_injection "Python".data "rules".data [] "local".data).2 (by decide)⟩

set_option maxRecDepth 16000 in
/-- C4 counterexample: with profile "local" (not "lambda") but a feedback
string that itself embeds the shim block, the prompt does contain the
platform-shim instruction, so "for any other profile it does not" is false as
universally stated. -/
theorem lambda_shim_nonlambda_cex :
    ("local".data : List Char) ≠ "lambda".data ∧
    lambdaBlock <:+:
      docker_prompt "Python Flask".data "Standard best practices.".data lambdaBlock
        "local".data :=
  ⟨by decide, by decide⟩

/-- C1: the correction loop is a bounded state machine.  `MAX_RETRIES`
defaults to 3; for every session with at least one allowed attempt, the loop
terminates with a result whose count is its final attempt's index + 1, an
empty final report means Passed, a non-empty one means Exhausted at
index + 1 = maxRetries, and every attempt ever created has index <
maxRetries. -/
theorem correction_loop_bounded :
    MAX_RETRIES = 3 ∧
    ∀ (A V : Type) [DecidableEq V] (gen : Nat → List V → A) (auditor : A → List V) (m : Nat),
      1 ≤ m →
      ∃ r : SessionResult A V,
        (runSession gen auditor m).2 = some r ∧
        r.count = r.attempt.index + 1 ∧
        (r.attempt.report = [] → r.status = SessionStatus.Passed) ∧
        (r.attempt.report ≠ [] → r.status = SessionStatus.Exhausted ∧ r.attempt.index + 1 = m) ∧
        (∀ a ∈ (runSession gen auditor m).1, a.index < m) := by
  refine ⟨rfl, ?_⟩
  intro A V _ gen auditor m hm
  exact loopSound gen auditor m m 0 [] (by omega) hm

/-- Witness for C1: a session that passes on its third attempt under the
default budget of 3. -/
theorem correction_loop_bounded_witness :
    ∃ r : SessionResult Nat Nat,
      (runSession (fun i _ => i) (fun a => if a < 2 then [7] else []) 3).2 = some r ∧
      r.count = r.attempt.index + 1 ∧
      (r.attempt.report = [] → r.status = SessionStatus.Passed) ∧
      (r.attempt.report ≠ [] → r.status = SessionStatus.Exhausted ∧ r.attempt.index + 1 = 3) ∧
      (∀ a ∈ (runSession (fun i _ => i) (fun a => if a < 2 then [7] else []) 3).1,
        a.index < 3) :=
  correction_loop_bounded.2 Nat Nat (fun i _ => i) (fun a => if a < 2 then [7] else []) 3
    (by decide)

/-- C2: for every session, the feedback passed to the generator call of
attempt 0 is empty, and the feedback of attempt i+1 equals exactly the
violation list of attempt i's audit report (never a union of history). -/
theorem correction_loop_feedback (A V : Type) [DecidableEq V]
    (gen : Nat → List V → A) (auditor : A → List V) (m : Nat) :
    (∀ h0 : 0 < (runSession gen auditor m).1.length,
      ((runSession gen auditor m).1.get ⟨0, h0⟩).feedback = []) ∧
    (∀ (i : Nat) (h : i + 1 < (runSession gen auditor m).1.length),
      ((runSession gen auditor m).1.get ⟨i + 1, h⟩).feedback
        = ((runSession gen auditor m).1.get ⟨i, Nat.lt_of_succ_lt h⟩).report) :=
  chainGet (runSession gen auditor m).1 [] (loopChain gen auditor m m 0 [])

/-- Witness for C2: in a concrete three-attempt session, attempt 0 gets empty
feedback and attempt 1 gets exactly attempt 0's report. -/
theorem correction_loop_feedback_witness :
    ((runSession (fun i _ => i) (fun a => if a < 2 then [9] else []) 3).1.get
        ⟨0, by decide⟩).feedback = ([] : List Nat) ∧
    ((runSession (fun i _ => i) (fun a => if a < 2 then [9] else []) 3).1.get
        ⟨1, by decide⟩).feedback
      = ((runSession (fun i _ => i) (fun a => if a < 2 then [9] else []) 3).1.get
          ⟨0, by decide⟩).report := by
  refine ⟨(correction_loop_feedback Nat Nat (fun i _ => i)
    (fun a => if a < 2 then [9] else []) 3).1 (by decide), ?_⟩
  exact (correction_loop_feedback Nat Nat (fun i _ => i)
    (fun a => if a < 2 then [9] else []) 3).2 0 (by decide)
